import Mathlib

/-!
Verification of the reverberation envelope accumulation engine of the
Under Sea Modeling Library (envelope_collection, beam_pattern_sine).

The store is embedded shallowly: matrices are lists of rows (rows indexed by
envelope frequency, columns by two-way travel time), the three outer axes
(azimuth, source beam, receiver beam) are nested lists, and double-precision
values are modelled as real numbers.  Operations whose bodies appear in the
header (the envelope getter and setter, the metadata setters) are translated
directly from that code; operations whose bodies live in the library's .cc
files (constructor, add_contribution, dead_reckon) are modelled from the
specification and say so in their doc comments.
-/

namespace USML

/-- Index-aware map over a list, used to embed loops that update every element
of a nested array while knowing its index. -/
def mapI (f : ℕ → α → β) : ℕ → List α → List β
  | _, [] => []
  | i, a :: l => f i a :: mapI f (i + 1) l

/-- Geodetic position (latitude, longitude, altitude), embedding wposition1. -/
structure wposition1 where
  latitude : ℝ
  longitude : ℝ
  altitude : ℝ

/-- One ray-bundle boundary-interaction footprint, embedding the fields of
eigenverb that the envelope accumulation reads: two-way travel time, energy
per envelope frequency, and the receiver azimuth bucket that owns it. -/
structure eigenverb where
  time : ℝ
  energy : List ℝ
  az_index : ℕ

/-- The nested store of envelope matrices: azimuth, then source beam, then
receiver beam, then a matrix as a list of frequency rows of travel-time
columns. -/
abbrev Env5 := List (List (List (List (List ℝ))))

/-- The reverberation envelope collection, embedding the fields of
envelope_collection. -/
structure envelope_collection where
  envelope_freq : List ℝ
  travel_time : List ℝ
  reverb_duration : ℝ
  pulse_length : ℝ
  threshold : ℝ
  num_azimuths : ℕ
  num_src_beams : ℕ
  num_rcv_beams : ℕ
  initial_time : ℝ
  slant_range : ℝ
  source_id : ℤ
  receiver_id : ℤ
  source_position : wposition1
  receiver_position : wposition1
  envelopes : Env5

/-- The envelope getter: it takes only a shared (read) lock and then indexes
the nested arrays without any bounds check, so an out-of-range index
dereferences past the allocation; the embedding returns no result in that
case. -/
def envelope_get (c : envelope_collection) (azimuth src_beam rcv_beam : ℕ) :
    Option (List (List ℝ)) :=
  (((c.envelopes.get? azimuth).bind fun x => x.get? src_beam).bind
    fun x => x.get? rcv_beam)

/-- Replace one cell of the nested store with the supplied matrix, leaving
every other cell alone. -/
def set_cell (env : Env5) (azimuth src_beam rcv_beam : ℕ)
    (intensities : List (List ℝ)) : Env5 :=
  env.set azimuth
    ((env.getD azimuth []).set src_beam
      (((env.getD azimuth []).getD src_beam []).set rcv_beam intensities))

/-- The envelope setter: it takes the exclusive (write) lock and assigns the
supplied matrix into the cell unconditionally (see set_cell); the assignment
replaces the cell's contents and shape wholesale (ublas matrix assignment
resizes), with no shape or bounds validation. -/
def envelope_set (c : envelope_collection) (intensities : List (List ℝ))
    (azimuth src_beam rcv_beam : ℕ) : envelope_collection :=
  { c with envelopes := set_cell c.envelopes azimuth src_beam rcv_beam intensities }

/-- The initial_time setter: a bare field assignment, with no lock guard. -/
def initial_time_set (c : envelope_collection) (v : ℝ) : envelope_collection :=
  { c with initial_time := v }

/-- The source_position setter: a bare field assignment, with no lock guard. -/
def source_position_set (c : envelope_collection) (p : wposition1) :
    envelope_collection :=
  { c with source_position := p }

/-- The receiver_position setter: a bare field assignment, with no lock
guard. -/
def receiver_position_set (c : envelope_collection) (p : wposition1) :
    envelope_collection :=
  { c with receiver_position := p }

/-- Kind of lock an operation acquires on the collection's reader/writer
mutex for the duration of its body. -/
inductive LockAcquired where
  | noLock
  | sharedLock
  | exclusiveLock
deriving DecidableEq

/-- Lock taken by the envelope getter (read_lock_guard in the source). -/
def envelope_get_lock : LockAcquired := .sharedLock

/-- Lock taken by the envelope setter (write_lock_guard in the source). -/
def envelope_set_lock : LockAcquired := .exclusiveLock

/-- Lock taken by the initial_time setter: none appears in the source. -/
def initial_time_set_lock : LockAcquired := .noLock

/-- Lock taken by the source_position setter: none appears in the source. -/
def source_position_set_lock : LockAcquired := .noLock

/-- Lock taken by the receiver_position setter: none appears in the source. -/
def receiver_position_set_lock : LockAcquired := .noLock

/-- Modelled from the spec: add_contribution applies the whole multi-cell
update under one exclusive lock acquisition (its body is not among the
available sources). -/
def add_contribution_lock : LockAcquired := .exclusiveLock

/-- Modelled from the spec: dead reckoning is applied under the store's
exclusive lock (its body is not among the available sources). -/
def dead_reckon_lock : LockAcquired := .exclusiveLock

/-- Modelled from the spec: the constructor (its body is not among the
available sources) eagerly allocates the full azimuth by source-beam by
receiver-beam grid of zero-initialized frequency-by-time matrices and
records the scenario snapshot. -/
def envelope_collection.init (envelope_freq travel_time : List ℝ)
    (reverb_duration pulse_length threshold : ℝ)
    (num_azimuths num_src_beams num_rcv_beams : ℕ)
    (initial_time slant_range : ℝ) (source_id receiver_id : ℤ)
    (src_position rcv_position : wposition1) : envelope_collection :=
  { envelope_freq := envelope_freq
    travel_time := travel_time
    reverb_duration := reverb_duration
    pulse_length := pulse_length
    threshold := threshold
    num_azimuths := num_azimuths
    num_src_beams := num_src_beams
    num_rcv_beams := num_rcv_beams
    initial_time := initial_time
    slant_range := slant_range
    source_id := source_id
    receiver_id := receiver_id
    source_position := src_position
    receiver_position := rcv_position
    envelopes :=
      List.replicate num_azimuths
        (List.replicate num_src_beams
          (List.replicate num_rcv_beams
            (List.replicate envelope_freq.length
              (List.replicate travel_time.length (0 : ℝ))))) }

/-- Modelled from the spec: the per-frequency peak linear intensity of the
pulse response of one eigenverb pair, combining the two energies and the
scattering coefficient and attenuated by the Gaussian falloff implied by the
squared offsets xs2 and ys2; zero or negative scattering yields a zero
contribution. -/
noncomputable def peak_intensity (scatter src_energy rcv_energy : List ℝ)
    (xs2 ys2 : ℝ) (freq : ℕ) : ℝ :=
  if scatter.getD freq 0 ≤ 0 then 0
  else
    scatter.getD freq 0 * src_energy.getD freq 0 * rcv_energy.getD freq 0 *
      Real.exp (-(xs2 + ys2))

/-- Modelled from the spec: the value added by one eigenverb pair to entry
(freq, t) of the cell at (azimuth, src_beam, rcv_beam).  The pair owns
the azimuth bucket given by the receiver eigenverb; a pair whose time
support misses the reverberation window entirely is skipped; a frequency
whose peak is below the threshold is discarded; the time support is the
contiguous band of travel times within one pulse length of the pair's
combined two-way travel time, outside of which the contribution is exactly
zero; inside, the peak is scaled by the two beam gains and the Gaussian
time envelope. -/
noncomputable def contrib_delta (c : envelope_collection)
    (src_verb rcv_verb : eigenverb) (src_beam rcv_beam : List (List ℝ))
    (scatter : List ℝ) (xs2 ys2 : ℝ)
    (azimuth src_b rcv_b freq t : ℕ) : ℝ :=
  let T := src_verb.time + rcv_verb.time
  let peak := peak_intensity scatter src_verb.energy rcv_verb.energy xs2 ys2 freq
  if azimuth = rcv_verb.az_index then
    if T + c.pulse_length < 0 ∨ c.reverb_duration < T - c.pulse_length then 0
    else if peak < c.threshold then 0
    else
      let tau := c.travel_time.getD t 0
      if T - c.pulse_length ≤ tau ∧ tau ≤ T + c.pulse_length then
        peak * ((src_beam.getD freq []).getD src_b 0) *
          ((rcv_beam.getD freq []).getD rcv_b 0) *
            Real.exp (-(((tau - T) / c.pulse_length) ^ 2))
      else 0
  else 0

/-- Apply a pointwise, index-aware update to every entry of every matrix of
the nested store. -/
def map_entries (g : ℕ → ℕ → ℕ → ℕ → ℕ → ℝ → ℝ) (env : Env5) : Env5 :=
  mapI (fun a sl =>
    mapI (fun s sl2 =>
      mapI (fun r m =>
        mapI (fun freq row =>
          mapI (fun t v => g a s r freq t v) 0 row) 0 m) 0 sl2) 0 sl) 0 env

/-- Modelled from the spec: add_contribution takes the exclusive lock, then
loops over every cell of the azimuth bucket owned by the receiver eigenverb
and over source and receiver beams, accumulating the bounded-support
Gaussian contribution additively into the stored intensities. -/
noncomputable def add_contribution (c : envelope_collection)
    (src_verb rcv_verb : eigenverb) (src_beam rcv_beam : List (List ℝ))
    (scatter : List ℝ) (xs2 ys2 : ℝ) : envelope_collection :=
  { c with
      envelopes :=
        map_entries
          (fun a s r freq t v =>
            v + contrib_delta c src_verb rcv_verb src_beam rcv_beam scatter
                  xs2 ys2 a s r freq t)
          c.envelopes }

/-- Modelled from the spec: dead reckoning updates the cached slant range
and shifts the initial-time offset by a scale/offset derived from the ratio
of the new and previous ranges and the elapsed time; it touches only that
time-labelling metadata and never the stored intensity matrices. -/
noncomputable def dead_reckon (c : envelope_collection)
    (delta_time slant_range prev_range : ℝ) : envelope_collection :=
  { c with
      slant_range := slant_range
      initial_time :=
        c.initial_time + delta_time * ((slant_range - prev_range) / prev_range) }

/-- The arguments of one add_contribution call, bundled so that sequences of
contributions can be folded over the store. -/
structure contribution where
  src_verb : eigenverb
  rcv_verb : eigenverb
  src_beam : List (List ℝ)
  rcv_beam : List (List ℝ)
  scatter : List ℝ
  xs2 : ℝ
  ys2 : ℝ

/-- Apply one bundled contribution. -/
noncomputable def apply_contribution (c : envelope_collection)
    (cb : contribution) : envelope_collection :=
  add_contribution c cb.src_verb cb.rcv_verb cb.src_beam cb.rcv_beam
    cb.scatter cb.xs2 cb.ys2

/-- Apply a sequence of contributions in order. -/
noncomputable def apply_contributions (c : envelope_collection)
    (l : List contribution) : envelope_collection :=
  l.foldl apply_contribution c

/-- The stored intensity at one fully-specified index, as an optional value:
no value when any index is outside the nested store. -/
def entry_opt (env : Env5) (a s r freq t : ℕ) : Option ℝ :=
  ((((env.get? a).bind fun x => x.get? s).bind fun x => x.get? r).bind
    fun x => x.get? freq).bind fun x => x.get? t

/-- The stored intensity at one fully-specified index of a collection,
defaulting to zero outside the store. -/
def entryD (c : envelope_collection) (a s r freq t : ℕ) : ℝ :=
  (entry_opt c.envelopes a s r freq t).getD 0

/-- The update applied to one entry of the store by one bundled contribution;
reads only the scalar configuration of the collection, never its matrices. -/
noncomputable def contribution.step (cb : contribution)
    (c : envelope_collection) : ℕ → ℕ → ℕ → ℕ → ℕ → ℝ → ℝ :=
  fun a s r freq t v =>
    v + contrib_delta c cb.src_verb cb.rcv_verb cb.src_beam cb.rcv_beam
          cb.scatter cb.xs2 cb.ys2 a s r freq t

/-- The dimensional invariant of the store: the nested arrays match the
configured azimuth and beam counts and every matrix is exactly
envelope-frequency count by travel-time count. -/
def MatrixDims (c : envelope_collection) : Prop :=
  c.envelopes.length = c.num_azimuths ∧
    ∀ sl ∈ c.envelopes, sl.length = c.num_src_beams ∧
      ∀ sl2 ∈ sl, sl2.length = c.num_rcv_beams ∧
        ∀ m ∈ sl2, m.length = c.envelope_freq.length ∧
          ∀ row ∈ m, row.length = c.travel_time.length

instance (c : envelope_collection) : Decidable (MatrixDims c) := by
  unfold MatrixDims; infer_instance

/-- The error taxonomy named by the specification for the store's API. -/
inductive EnvError where
  | indexOutOfRange
  | shapeMismatch
deriving DecidableEq

/-- Following the spec's words, for comparison with the source getter: an
access that checks the azimuth and beam indices against the configured
bounds at the API boundary and reports IndexOutOfRange before any cell is
read. -/
def envelope_get_checked (c : envelope_collection)
    (azimuth src_beam rcv_beam : ℕ) : Except EnvError (List (List ℝ)) :=
  if azimuth < c.num_azimuths ∧ src_beam < c.num_src_beams ∧
      rcv_beam < c.num_rcv_beams then
    .ok (((c.envelopes.getD azimuth []).getD src_beam []).getD rcv_beam [])
  else .error .indexOutOfRange

/-- One operation of the store's public lifecycle, for stating properties of
arbitrary operation sequences. -/
inductive env_op where
  | getEnvelope (azimuth src_beam rcv_beam : ℕ)
  | setEnvelope (intensities : List (List ℝ)) (azimuth src_beam rcv_beam : ℕ)
  | addContribution (cb : contribution)
  | deadReckon (delta_time slant_range prev_range : ℝ)
  | setInitialTime (v : ℝ)
  | setSourcePosition (p : wposition1)
  | setReceiverPosition (p : wposition1)

/-- The state after one lifecycle operation (the getter reads without
mutating). -/
noncomputable def apply_op (c : envelope_collection) : env_op → envelope_collection
  | .getEnvelope _ _ _ => c
  | .setEnvelope m a s r => envelope_set c m a s r
  | .addContribution cb => apply_contribution c cb
  | .deadReckon dt sr pr => dead_reckon c dt sr pr
  | .setInitialTime v => initial_time_set c v
  | .setSourcePosition p => source_position_set c p
  | .setReceiverPosition p => receiver_position_set c p

/-- An operation is shape-respecting when any matrix it stores wholesale has
exactly the configured frequency-by-time shape; every other operation is
unconstrained. -/
def good_op (nf nt : ℕ) : env_op → Prop
  | .setEnvelope m _ _ _ => m.length = nf ∧ ∀ row ∈ m, row.length = nt
  | _ => True

/-- A contribution whose energies and beam gains are all non-negative (the
physical reading of energy and gain ratio inputs). -/
def contribution.nonneg (cb : contribution) : Prop :=
  (∀ x ∈ cb.src_verb.energy, 0 ≤ x) ∧ (∀ x ∈ cb.rcv_verb.energy, 0 ≤ x) ∧
    (∀ row ∈ cb.src_beam, ∀ x ∈ row, 0 ≤ x) ∧
      (∀ row ∈ cb.rcv_beam, ∀ x ∈ row, 0 ≤ x)

/-- The common scalar that beam_pattern_sine writes into every entry of the
level vector. -/
noncomputable def dotnorm (de az theta phi : ℝ) : ℝ :=
  let theta_prime := Real.pi / 2 - de
  let sint := Real.sin (0.5 * (theta_prime - theta) + 1 / 10 ^ 10)
  let sinp := Real.sin (0.5 * (az + phi) + 1 / 10 ^ 10)
  1 - 2 * (sint * sint + Real.sin theta_prime * Real.sin theta * sinp * sinp)

/-- beam_pattern_sine::beam_level, translated from the source: it computes
one scalar from the angles alone and fills the output vector with one copy
of it per frequency. -/
noncomputable def beam_level (de az theta phi : ℝ)
    (frequencies : List ℝ) : List ℝ :=
  List.replicate frequencies.length (dotnorm de az theta phi)

/-- A tiny concrete store (one azimuth, one source beam, one receiver beam,
one frequency, two travel times, zeroed matrix) used to instantiate the
theorems on explicit inputs. -/
def store1 : envelope_collection :=
  { envelope_freq := [100]
    travel_time := [0, 1]
    reverb_duration := 10
    pulse_length := 1
    threshold := 1
    num_azimuths := 1
    num_src_beams := 1
    num_rcv_beams := 1
    initial_time := 0
    slant_range := 100
    source_id := 1
    receiver_id := 2
    source_position := ⟨0, 0, 0⟩
    receiver_position := ⟨0, 0, 0⟩
    envelopes := [[[[[0, 0]]]]] }

/-- The concrete store of the specification's scenario: one cell, one
frequency, five travel-time bins at one-second spacing, half-second pulse,
threshold 10⁻¹². -/
noncomputable def scenario_store : envelope_collection :=
  { envelope_freq := [250]
    travel_time := [0, 1, 2, 3, 4]
    reverb_duration := 10
    pulse_length := 1 / 2
    threshold := 1 / 10 ^ 12
    num_azimuths := 1
    num_src_beams := 1
    num_rcv_beams := 1
    initial_time := 0
    slant_range := 100
    source_id := 1
    receiver_id := 2
    source_position := ⟨0, 0, 0⟩
    receiver_position := ⟨0, 0, 0⟩
    envelopes := [[[[[0, 0, 0, 0, 0]]]]] }

/-- The eigenverb pair of the scenario: combined two-way travel time 2 s,
unit energies, azimuth bucket 0. -/
def scenario_src_verb : eigenverb := ⟨1, [1], 0⟩

/-- Receiver half of the scenario eigenverb pair. -/
def scenario_rcv_verb : eigenverb := ⟨1, [1], 0⟩

/-- The scenario contribution: unit beam gains, scattering 0.003, zero
offsets, so the peak 0.003 lands in time bin 2. -/
noncomputable def scenario_contribution : contribution :=
  ⟨scenario_src_verb, scenario_rcv_verb, [[1]], [[1]], [3 / 1000], 0, 0⟩

/-- A second concrete contribution, distinct from the scenario one, for
exercising order-independence on an explicit pair. -/
noncomputable def contribution2 : contribution :=
  ⟨⟨0, [2], 0⟩, ⟨1, [1], 0⟩, [[1]], [[1]], [1 / 500], 0, 0⟩

theorem mapI_length (f : ℕ → α → β) (l : List α) : ∀ i, (mapI f i l).length = l.length := by
  induction l with
  | nil => intro i; rfl
  | cons a l ih => intro i; simp [mapI, ih]

theorem mapI_get? (f : ℕ → α → β) (l : List α) :
    ∀ i j, (mapI f i l).get? j = (l.get? j).map (f (i + j)) := by
  induction l with
  | nil => intro i j; simp [mapI]
  | cons a l ih =>
      intro i j
      cases j with
      | zero => simp [mapI]
      | succ j =>
          have hij : i + 1 + j = i + (j + 1) := by omega
          simp only [mapI, List.get?]
          rw [ih, hij]

theorem mapI_comp (f : ℕ → β → γ) (g : ℕ → α → β) (l : List α) :
    ∀ i, mapI f i (mapI g i l) = mapI (fun j a => f j (g j a)) i l := by
  induction l with
  | nil => intro i; rfl
  | cons a l ih => intro i; simp [mapI, ih]

theorem mapI_congr {f g : ℕ → α → β} (l : List α)
    (h : ∀ i a, f i a = g i a) : ∀ i, mapI f i l = mapI g i l := by
  induction l with
  | nil => intro i; rfl
  | cons a l ih => intro i; simp [mapI, h, ih]

theorem mapI_mem {f : ℕ → α → β} {l : List α} {b : β}
    (h : b ∈ mapI f i l) : ∃ j a, a ∈ l ∧ b = f j a := by
  induction l generalizing i with
  | nil => simp [mapI] at h
  | cons a l ih =>
      simp only [mapI, List.mem_cons] at h
      cases h with
      | inl h => exact ⟨i, a, List.mem_cons_self a l, h⟩
      | inr h =>
          obtain ⟨j, x, hx, hb⟩ := ih h
          exact ⟨j, x, List.mem_cons_of_mem a hx, hb⟩

theorem map_entries_comp (f g : ℕ → ℕ → ℕ → ℕ → ℕ → ℝ → ℝ) (env : Env5) :
    map_entries f (map_entries g env)
      = map_entries (fun a s r freq t v => f a s r freq t (g a s r freq t v)) env := by
  unfold map_entries
  rw [mapI_comp]
  refine mapI_congr env ?_ 0
  intro a sl
  rw [mapI_comp]
  refine mapI_congr sl ?_ 0
  intro s sl2
  rw [mapI_comp]
  refine mapI_congr sl2 ?_ 0
  intro r m
  rw [mapI_comp]
  refine mapI_congr m ?_ 0
  intro freq row
  rw [mapI_comp]

theorem entry_opt_map_entries (g : ℕ → ℕ → ℕ → ℕ → ℕ → ℝ → ℝ) (env : Env5)
    (a s r freq t : ℕ) :
    entry_opt (map_entries g env) a s r freq t
      = (entry_opt env a s r freq t).map (g a s r freq t) := by
  unfold entry_opt map_entries
  rw [mapI_get?]
  cases h1 : env.get? a with
  | none => simp
  | some sl =>
      simp only [Option.map_some', Option.some_bind, Nat.zero_add]
      rw [mapI_get?]
      cases h2 : sl.get? s with
      | none => simp
      | some sl2 =>
          simp only [Option.map_some', Option.some_bind, Nat.zero_add]
          rw [mapI_get?]
          cases h3 : sl2.get? r with
          | none => simp
          | some m =>
              simp only [Option.map_some', Option.some_bind, Nat.zero_add]
              rw [mapI_get?]
              cases h4 : m.get? freq with
              | none => simp
              | some row =>
                  simp only [Option.map_some', Option.some_bind, Nat.zero_add]
                  rw [mapI_get?]
                  cases h5 : row.get? t with
                  | none => simp
                  | some v => simp

theorem apply_contribution_eq (c : envelope_collection) (cb : contribution) :
    apply_contribution c cb
      = { c with envelopes := map_entries (contribution.step cb c) c.envelopes } := rfl

theorem step_envelopes_irrel (cb : contribution) (c : envelope_collection)
    (e : Env5) :
    contribution.step cb { c with envelopes := e } = contribution.step cb c := rfl

theorem entry_opt_apply_contribution (c : envelope_collection)
    (cb : contribution) (a s r freq t : ℕ) :
    entry_opt (apply_contribution c cb).envelopes a s r freq t
      = (entry_opt c.envelopes a s r freq t).map
          (contribution.step cb c a s r freq t) := by
  rw [apply_contribution_eq]
  exact entry_opt_map_entries _ _ _ _ _ _ _

theorem getD_mem_or_eq (l : List α) (i : ℕ) (d : α) :
    l.getD i d ∈ l ∨ l.getD i d = d := by
  rw [List.getD_eq_getElem?_getD, ← List.get?_eq_getElem?]
  cases h : l.get? i with
  | none => right; rfl
  | some x => left; simpa using List.get?_mem h

theorem getD_nonneg_of_forall {l : List ℝ} (h : ∀ x ∈ l, 0 ≤ x) (i : ℕ) :
    0 ≤ l.getD i 0 := by
  cases getD_mem_or_eq l i 0 with
  | inl hm => exact h _ hm
  | inr he => rw [he]

theorem peak_intensity_nonneg {src_energy rcv_energy : List ℝ}
    (scatter : List ℝ) (xs2 ys2 : ℝ) (freq : ℕ)
    (hs : ∀ x ∈ src_energy, 0 ≤ x) (hr : ∀ x ∈ rcv_energy, 0 ≤ x) :
    0 ≤ peak_intensity scatter src_energy rcv_energy xs2 ys2 freq := by
  unfold peak_intensity
  split
  · exact le_refl 0
  · rename_i hsc
    push_neg at hsc
    exact mul_nonneg
      (mul_nonneg (mul_nonneg hsc.le (getD_nonneg_of_forall hs freq))
        (getD_nonneg_of_forall hr freq)) (Real.exp_nonneg _)

theorem contrib_delta_nonneg (c : envelope_collection) {cb : contribution}
    (h : cb.nonneg) (a s r freq t : ℕ) :
    0 ≤ contrib_delta c cb.src_verb cb.rcv_verb cb.src_beam cb.rcv_beam
          cb.scatter cb.xs2 cb.ys2 a s r freq t := by
  obtain ⟨hs, hr, hsb, hrb⟩ := h
  unfold contrib_delta
  dsimp only
  have hgain : ∀ (beam : List (List ℝ)), (∀ row ∈ beam, ∀ x ∈ row, 0 ≤ x) →
      ∀ i j, 0 ≤ (beam.getD i []).getD j 0 := by
    intro beam hb i j
    cases getD_mem_or_eq beam i [] with
    | inl hm => exact getD_nonneg_of_forall (hb _ hm) j
    | inr he => rw [he]; simp
  split
  · split
    · exact le_refl 0
    · split
      · exact le_refl 0
      · split
        · exact mul_nonneg
            (mul_nonneg
              (mul_nonneg (peak_intensity_nonneg cb.scatter cb.xs2 cb.ys2 freq hs hr)
                (hgain _ hsb freq s))
              (hgain _ hrb freq r))
            (Real.exp_nonneg _)
        · exact le_refl 0
  · exact le_refl 0

theorem entryD_apply_contribution_mono (c : envelope_collection)
    {cb : contribution} (h : cb.nonneg) (a s r freq t : ℕ) :
    entryD c a s r freq t ≤ entryD (apply_contribution c cb) a s r freq t := by
  unfold entryD
  rw [entry_opt_apply_contribution]
  cases entry_opt c.envelopes a s r freq t with
  | none => simp
  | some v =>
      simp only [Option.map_some', Option.getD_some]
      have := contrib_delta_nonneg c h a s r freq t
      unfold contribution.step
      linarith

theorem entryD_apply_contribution_nonneg (c : envelope_collection)
    {cb : contribution} (h : cb.nonneg) (a s r freq t : ℕ)
    (h0 : 0 ≤ entryD c a s r freq t) :
    0 ≤ entryD (apply_contribution c cb) a s r freq t :=
  le_trans h0 (entryD_apply_contribution_mono c h a s r freq t)

theorem apply_contribution_comm (c : envelope_collection)
    (cb1 cb2 : contribution) :
    apply_contribution (apply_contribution c cb1) cb2
      = apply_contribution (apply_contribution c cb2) cb1 := by
  simp only [apply_contribution_eq]
  simp only [step_envelopes_irrel]
  simp only [map_entries_comp]
  congr 1
  refine mapI_congr _ ?_ 0
  intro a sl
  refine mapI_congr _ ?_ 0
  intro s sl2
  refine mapI_congr _ ?_ 0
  intro r m
  refine mapI_congr _ ?_ 0
  intro freq row
  refine mapI_congr _ ?_ 0
  intro t v
  show v + _ + _ = v + _ + _
  exact add_right_comm _ _ _

theorem foldl_perm_of_comm {f : β → α → β}
    (hc : ∀ b x y, f (f b x) y = f (f b y) x) {l1 l2 : List α}
    (h : l1.Perm l2) : ∀ b, List.foldl f b l1 = List.foldl f b l2 := by
  induction h with
  | nil => intro b; rfl
  | cons x _ ih => intro b; simp only [List.foldl_cons]; exact ih _
  | swap x y l => intro b; simp only [List.foldl_cons]; rw [hc]
  | trans _ _ ih1 ih2 => intro b; rw [ih1, ih2]

theorem forall_mem_set {P : α → Prop} {l : List α} {i : ℕ} {x : α}
    (hl : ∀ y ∈ l, P y) (hx : i < l.length → P x) : ∀ y ∈ l.set i x, P y := by
  intro y hy
  by_cases hi : i < l.length
  · cases List.mem_or_eq_of_mem_set hy with
    | inl h => exact hl y h
    | inr h => exact h ▸ hx hi
  · push_neg at hi
    rw [List.set_eq_of_length_le hi] at hy
    exact hl y hy

theorem getD_mem_of_lt (l : List α) (d : α) (h : i < l.length) :
    l.getD i d ∈ l := by
  rw [List.getD_eq_getElem?_getD, List.getElem?_eq_getElem h]
  exact List.getElem_mem h

theorem get?_isSome_iff (l : List α) (n : ℕ) :
    (l.get? n).isSome ↔ n < l.length := by
  constructor
  · intro hs
    by_contra hn
    push_neg at hn
    rw [List.get?_eq_none.mpr hn] at hs
    simp at hs
  · intro hlt
    cases h : l.get? n with
    | none =>
        have := List.get?_eq_none.mp h
        omega
    | some a => simp

theorem matrixDims_init (envelope_freq travel_time : List ℝ)
    (reverb_duration pulse_length threshold : ℝ)
    (num_azimuths num_src_beams num_rcv_beams : ℕ)
    (initial_time slant_range : ℝ) (source_id receiver_id : ℤ)
    (src_position rcv_position : wposition1) :
    MatrixDims (envelope_collection.init envelope_freq travel_time
      reverb_duration pulse_length threshold num_azimuths num_src_beams
      num_rcv_beams initial_time slant_range source_id receiver_id
      src_position rcv_position) := by
  unfold MatrixDims envelope_collection.init
  dsimp only
  refine ⟨List.length_replicate _ _, ?_⟩
  intro sl hsl
  rw [List.eq_of_mem_replicate hsl]
  refine ⟨List.length_replicate _ _, ?_⟩
  intro sl2 hsl2
  rw [List.eq_of_mem_replicate hsl2]
  refine ⟨List.length_replicate _ _, ?_⟩
  intro m hm
  rw [List.eq_of_mem_replicate hm]
  refine ⟨List.length_replicate _ _, ?_⟩
  intro row hrow
  rw [List.eq_of_mem_replicate hrow]
  exact List.length_replicate _ _

theorem matrixDims_map_entries (c : envelope_collection)
    (g : ℕ → ℕ → ℕ → ℕ → ℕ → ℝ → ℝ) (h : MatrixDims c) :
    MatrixDims { c with envelopes := map_entries g c.envelopes } := by
  obtain ⟨hA, hrest⟩ := h
  unfold MatrixDims map_entries
  dsimp only
  constructor
  · rw [mapI_length]; exact hA
  · intro sl hsl
    obtain ⟨j, sl0, hsl0, rfl⟩ := mapI_mem hsl
    obtain ⟨hS, h2⟩ := hrest sl0 hsl0
    constructor
    · rw [mapI_length]; exact hS
    · intro sl2 hsl2
      obtain ⟨j2, sl20, hsl20, rfl⟩ := mapI_mem hsl2
      obtain ⟨hR, h3⟩ := h2 sl20 hsl20
      constructor
      · rw [mapI_length]; exact hR
      · intro m hm
        obtain ⟨j3, m0, hm0, rfl⟩ := mapI_mem hm
        obtain ⟨hF, h4⟩ := h3 m0 hm0
        constructor
        · rw [mapI_length]; exact hF
        · intro row hrow
          obtain ⟨j4, row0, hrow0, rfl⟩ := mapI_mem hrow
          rw [mapI_length]
          exact h4 row0 hrow0

theorem matrixDims_apply_contribution (c : envelope_collection)
    (cb : contribution) (h : MatrixDims c) :
    MatrixDims (apply_contribution c cb) := by
  rw [apply_contribution_eq]
  exact matrixDims_map_entries c _ h

theorem matrixDims_envelope_set (c : envelope_collection)
    (m : List (List ℝ)) (a s r : ℕ) (h : MatrixDims c)
    (hm : m.length = c.envelope_freq.length ∧
      ∀ row ∈ m, row.length = c.travel_time.length) :
    MatrixDims (envelope_set c m a s r) := by
  obtain ⟨hA, hrest⟩ := h
  unfold MatrixDims envelope_set set_cell
  dsimp only
  constructor
  · rw [List.length_set]; exact hA
  · refine forall_mem_set hrest ?_
    intro ha
    have hEa := getD_mem_of_lt c.envelopes [] ha
    obtain ⟨hS, h2⟩ := hrest _ hEa
    constructor
    · rw [List.length_set]; exact hS
    · refine forall_mem_set h2 ?_
      intro hs
      have hEas := getD_mem_of_lt (c.envelopes.getD a []) [] hs
      obtain ⟨hR, h3⟩ := h2 _ hEas
      constructor
      · rw [List.length_set]; exact hR
      · refine forall_mem_set h3 ?_
        intro _
        exact hm

theorem apply_op_axes (c : envelope_collection) (op : env_op) :
    (apply_op c op).envelope_freq = c.envelope_freq ∧
      (apply_op c op).travel_time = c.travel_time := by
  cases op <;> exact ⟨rfl, rfl⟩

theorem matrixDims_apply_op (c : envelope_collection) (op : env_op)
    (h : MatrixDims c)
    (hop : good_op c.envelope_freq.length c.travel_time.length op) :
    MatrixDims (apply_op c op) := by
  cases op with
  | getEnvelope a s r => exact h
  | setEnvelope m a s r => exact matrixDims_envelope_set c m a s r h hop
  | addContribution cb => exact matrixDims_apply_contribution c cb h
  | deadReckon dt sr pr => exact h
  | setInitialTime v => exact h
  | setSourcePosition p => exact h
  | setReceiverPosition p => exact h

theorem matrixDims_foldl (ops : List env_op) :
    ∀ c : envelope_collection, MatrixDims c →
      (∀ op ∈ ops, good_op c.envelope_freq.length c.travel_time.length op) →
        MatrixDims (List.foldl apply_op c ops) := by
  induction ops with
  | nil => intro c h _; exact h
  | cons op ops ih =>
      intro c h hops
      rw [List.foldl_cons]
      obtain ⟨hf, ht⟩ := apply_op_axes c op
      refine ih _ (matrixDims_apply_op c op h (hops op (List.mem_cons_self _ _))) ?_
      intro op2 hop2
      rw [hf, ht]
      exact hops op2 (List.mem_cons_of_mem _ hop2)

theorem contrib_delta_below_threshold (c : envelope_collection)
    (sv rv : eigenverb) (sb rb : List (List ℝ)) (sc : List ℝ) (x y : ℝ)
    (freq : ℕ)
    (h : peak_intensity sc sv.energy rv.energy x y freq < c.threshold)
    (a s r t : ℕ) : contrib_delta c sv rv sb rb sc x y a s r freq t = 0 := by
  unfold contrib_delta
  dsimp only
  split_ifs
  all_goals rfl

theorem contrib_delta_outside_support (c : envelope_collection)
    (sv rv : eigenverb) (sb rb : List (List ℝ)) (sc : List ℝ) (x y : ℝ)
    (a s r freq t : ℕ)
    (h : ¬ (sv.time + rv.time - c.pulse_length ≤ c.travel_time.getD t 0 ∧
            c.travel_time.getD t 0 ≤ sv.time + rv.time + c.pulse_length)) :
    contrib_delta c sv rv sb rb sc x y a s r freq t = 0 := by
  unfold contrib_delta
  dsimp only
  split_ifs
  all_goals first | rfl | exact absurd (by assumption) h

theorem entryD_unchanged_of_delta_zero (c : envelope_collection)
    (sv rv : eigenverb) (sb rb : List (List ℝ)) (sc : List ℝ) (x y : ℝ)
    (a s r freq t : ℕ)
    (hd : contrib_delta c sv rv sb rb sc x y a s r freq t = 0) :
    entryD (add_contribution c sv rv sb rb sc x y) a s r freq t
      = entryD c a s r freq t := by
  show entryD (apply_contribution c ⟨sv, rv, sb, rb, sc, x, y⟩) a s r freq t = _
  unfold entryD
  rw [entry_opt_apply_contribution]
  cases ho : entry_opt c.envelopes a s r freq t with
  | none => rfl
  | some v =>
      simp only [Option.map_some', Option.getD_some, contribution.step]
      rw [hd, add_zero]

/-- C1 counterexample: the dimensional invariant holds of a concretely
well-formed one-cell store whose matrices are 1 by 2, but a single envelope
setter call that stores a 1-by-3 matrix breaks it: the setter replaces the
cell wholesale without any shape validation. -/
theorem c1_counterexample :
    MatrixDims store1 ∧ ¬ MatrixDims (envelope_set store1 [[0, 0, 0]] 0 0 0) := by
  constructor
  · decide
  · decide

/-- C1 (amended): every freshly constructed store satisfies the N_f-by-N_t
dimensional invariant, and every operation sequence preserves it provided
each envelope-setter call in the sequence supplies a matrix of exactly that
shape; without that proviso the setter can break it (see the
counterexample). -/
theorem c1_amended_shape_invariant :
    (∀ (envelope_freq travel_time : List ℝ)
        (reverb_duration pulse_length threshold : ℝ)
        (num_azimuths num_src_beams num_rcv_beams : ℕ)
        (initial_time slant_range : ℝ) (source_id receiver_id : ℤ)
        (sp rp : wposition1),
      MatrixDims (envelope_collection.init envelope_freq travel_time
        reverb_duration pulse_length threshold num_azimuths num_src_beams
        num_rcv_beams initial_time slant_range source_id receiver_id sp rp)) ∧
      ∀ (c : envelope_collection) (ops : List env_op), MatrixDims c →
        (∀ op ∈ ops, good_op c.envelope_freq.length c.travel_time.length op) →
          MatrixDims (List.foldl apply_op c ops) :=
  ⟨fun ef tt rd pl th A S R it sr sid rid sp rp =>
      matrixDims_init ef tt rd pl th A S R it sr sid rid sp rp,
    fun c ops h hops => matrixDims_foldl ops c h hops⟩

/-- C1 witness: the amended invariant applied to a concrete store and a
concrete operation sequence containing a well-shaped setter call. -/
theorem c1_amended_witness :
    MatrixDims (List.foldl apply_op store1
      [env_op.setEnvelope [[7, 7]] 0 0 0, env_op.setInitialTime 3]) := by
  refine c1_amended_shape_invariant.2 store1 _ (by decide) ?_
  intro op hop
  simp only [List.mem_cons, List.not_mem_nil, or_false] at hop
  rcases hop with rfl | rfl
  · refine ⟨rfl, ?_⟩
    intro row hrow
    simp only [List.mem_singleton] at hrow
    rw [hrow]
    rfl
  · trivial

/-- C2: a contribution whose per-frequency peak intensity falls below the
construction-time threshold adds nothing at that frequency: every entry of
that frequency row, in every cell, is unchanged, and a zero entry stays
exactly zero. -/
theorem c2_below_threshold_adds_nothing (c : envelope_collection)
    (sv rv : eigenverb) (sb rb : List (List ℝ)) (sc : List ℝ) (x y : ℝ)
    (freq : ℕ)
    (h : peak_intensity sc sv.energy rv.energy x y freq < c.threshold) :
    ∀ a s r t,
      entryD (add_contribution c sv rv sb rb sc x y) a s r freq t
          = entryD c a s r freq t ∧
        (entryD c a s r freq t = 0 →
          entryD (add_contribution c sv rv sb rb sc x y) a s r freq t = 0) := by
  intro a s r t
  have hEq := entryD_unchanged_of_delta_zero c sv rv sb rb sc x y a s r freq t
    (contrib_delta_below_threshold c sv rv sb rb sc x y freq h a s r t)
  exact ⟨hEq, fun h0 => hEq.trans h0⟩

/-- C2 witness: a concrete below-threshold contribution (zero scattering, so
a zero peak against the threshold 1 of the sample store) leaves the cell
entry unchanged. -/
theorem c2_witness :
    peak_intensity [0] (⟨0, [1], 0⟩ : eigenverb).energy
        (⟨0, [1], 0⟩ : eigenverb).energy 0 0 0 < store1.threshold ∧
      entryD (add_contribution store1 ⟨0, [1], 0⟩ ⟨0, [1], 0⟩ [[1]] [[1]] [0] 0 0)
          0 0 0 0 0
        = entryD store1 0 0 0 0 0 := by
  have hp : peak_intensity [0] (⟨0, [1], 0⟩ : eigenverb).energy
      (⟨0, [1], 0⟩ : eigenverb).energy 0 0 0 < store1.threshold := by
    unfold peak_intensity
    norm_num [store1]
  exact ⟨hp,
    (c2_below_threshold_adds_nothing store1 ⟨0, [1], 0⟩ ⟨0, [1], 0⟩ [[1]] [[1]]
      [0] 0 0 0 hp 0 0 0 0).1⟩

/-- C3: dead reckoning with zero elapsed time or an unchanged slant range
leaves every stored intensity unchanged; indeed the modelled dead reckoning
never touches the envelope matrices, only the time-labelling metadata. -/
theorem c3_dead_reckon_preserves_intensities (c : envelope_collection)
    (delta_time slant_range prev_range : ℝ)
    (h : delta_time = 0 ∨ slant_range = prev_range) :
    (∀ a s r freq t,
        entryD (dead_reckon c delta_time slant_range prev_range) a s r freq t
          = entryD c a s r freq t) ∧
      (dead_reckon c delta_time slant_range prev_range).envelopes
        = c.envelopes :=
  ⟨fun _ _ _ _ _ => rfl, rfl⟩

/-- C3 witness: dead reckoning the sample store with zero elapsed time. -/
theorem c3_witness :
    (dead_reckon store1 0 5 7).envelopes = store1.envelopes :=
  (c3_dead_reckon_preserves_intensities store1 0 5 7 (Or.inl rfl)).2

/-- C5 counterexample: the setter, handed a 1-by-3 matrix in a store whose
configured shape is 1 by 2, reports nothing and does mutate: afterwards the
cell holds exactly the mis-shaped matrix, which differs from the prior
contents. -/
theorem c5_counterexample :
    envelope_get (envelope_set store1 [[1, 2, 3]] 0 0 0) 0 0 0 = some [[1, 2, 3]] ∧
      envelope_get store1 0 0 0 = some [[0, 0]] ∧
        ([[1, 2, 3]] : List (List ℝ)) ≠ [[0, 0]] := by
  refine ⟨rfl, rfl, ?_⟩
  intro h
  have := congrArg (fun l => (l.headD []).length) h
  simp at this

/-- C5 (amended): the setter performs no shape validation at all: for any
in-range cell it unconditionally replaces the cell's contents (and shape)
with the supplied matrix, whatever its shape; no ShapeMismatch error path
exists in the code. -/
theorem c5_amended_setter_always_replaces (c : envelope_collection)
    (m : List (List ℝ)) (a s r : ℕ)
    (ha : a < c.envelopes.length)
    (hs : s < (c.envelopes.getD a []).length)
    (hr : r < ((c.envelopes.getD a []).getD s []).length) :
    envelope_get (envelope_set c m a s r) a s r = some m := by
  unfold envelope_get envelope_set set_cell
  dsimp only
  rw [List.get?_set_eq_of_lt _ ha, Option.some_bind,
    List.get?_set_eq_of_lt _ hs, Option.some_bind,
    List.get?_set_eq_of_lt _ hr]

/-- C5 witness: the amended statement applied to the sample store and a
concrete (well-shaped) replacement matrix. -/
theorem c5_amended_witness :
    envelope_get (envelope_set store1 [[5, 5]] 0 0 0) 0 0 0 = some [[5, 5]] :=
  c5_amended_setter_always_replaces store1 [[5, 5]] 0 0 0 (by decide) (by decide)
    (by decide)

/-- C9 counterexample: the initial_time setter mutates the store (it changes
the initial-time metadata) yet acquires no lock at all, contradicting the
claim that every metadata mutation takes the exclusive lock. -/
theorem c9_counterexample :
    initial_time_set_lock = LockAcquired.noLock ∧
      initial_time_set_lock ≠ LockAcquired.exclusiveLock ∧
        (initial_time_set store1 99).initial_time ≠ store1.initial_time := by
  refine ⟨rfl, by decide, ?_⟩
  show (99 : ℝ) ≠ 0
  norm_num

/-- C9 (amended): the envelope setter takes the exclusive lock and the
getter the shared lock, and the modelled add_contribution and dead_reckon
take the exclusive lock, but the three metadata setters (initial time,
source position, receiver position) are bare assignments that take no lock,
so the code does not prevent a reader from pairing intensity data with
mid-update positional metadata. -/
theorem c9_amended_locking_discipline :
    envelope_set_lock = LockAcquired.exclusiveLock ∧
      envelope_get_lock = LockAcquired.sharedLock ∧
        add_contribution_lock = LockAcquired.exclusiveLock ∧
          dead_reckon_lock = LockAcquired.exclusiveLock ∧
            initial_time_set_lock = LockAcquired.noLock ∧
              source_position_set_lock = LockAcquired.noLock ∧
                receiver_position_set_lock = LockAcquired.noLock ∧
                  ∀ (c : envelope_collection) (v : ℝ),
                    (initial_time_set c v).initial_time = v :=
  ⟨rfl, rfl, rfl, rfl, rfl, rfl, rfl, fun _ _ => rfl⟩

/-- C4: accumulation is additive and sign-preserving: over any sequence of
contributions with (physically meaningful) non-negative energies and beam
gains, every stored entry is at least its prior value, and if the store held
no negative intensity before the sequence it holds none after. -/
theorem c4_accumulation_additive_nonneg (c : envelope_collection)
    (l : List contribution) (h : ∀ cb ∈ l, cb.nonneg) :
    (∀ a s r freq t,
        entryD c a s r freq t ≤ entryD (apply_contributions c l) a s r freq t) ∧
      ((∀ a s r freq t, 0 ≤ entryD c a s r freq t) →
        ∀ a s r freq t, 0 ≤ entryD (apply_contributions c l) a s r freq t) := by
  induction l generalizing c with
  | nil => exact ⟨fun a s r freq t => le_refl _, fun h0 => h0⟩
  | cons cb l ih =>
      have hstep : apply_contributions c (cb :: l)
          = apply_contributions (apply_contribution c cb) l := by
        unfold apply_contributions
        rw [List.foldl_cons]
      rw [hstep]
      have hcb : cb.nonneg := h cb (List.mem_cons_self _ _)
      have hl : ∀ x ∈ l, x.nonneg := fun x hx => h x (List.mem_cons_of_mem _ hx)
      obtain ⟨ih1, ih2⟩ := ih (apply_contribution c cb) hl
      constructor
      · intro a s r freq t
        exact le_trans (entryD_apply_contribution_mono c hcb a s r freq t)
          (ih1 a s r freq t)
      · intro h0
        exact ih2 fun a s r freq t =>
          entryD_apply_contribution_nonneg c hcb a s r freq t (h0 a s r freq t)

/-- C4 witness: a concrete non-negative contribution applied to the sample
store never decreases the sampled entry. -/
theorem c4_witness :
    (∀ cb ∈ [scenario_contribution], cb.nonneg) ∧
      entryD store1 0 0 0 0 0
        ≤ entryD (apply_contributions store1 [scenario_contribution]) 0 0 0 0 0 := by
  have hn : ∀ cb ∈ [scenario_contribution], cb.nonneg := by
    intro cb hcb
    simp only [List.mem_singleton] at hcb
    subst hcb
    refine ⟨?_, ?_, ?_, ?_⟩
    · intro x hx
      simp only [scenario_contribution, scenario_src_verb] at hx
      simp only [List.mem_singleton] at hx
      rw [hx]
      norm_num
    · intro x hx
      simp only [scenario_contribution, scenario_rcv_verb] at hx
      simp only [List.mem_singleton] at hx
      rw [hx]
      norm_num
    · intro row hrow x hx
      simp only [scenario_contribution] at hrow
      simp only [List.mem_singleton] at hrow
      rw [hrow] at hx
      simp only [List.mem_singleton] at hx
      rw [hx]
      norm_num
    · intro row hrow x hx
      simp only [scenario_contribution] at hrow
      simp only [List.mem_singleton] at hrow
      rw [hrow] at hx
      simp only [List.mem_singleton] at hx
      rw [hx]
      norm_num
  exact ⟨hn,
    (c4_accumulation_additive_nonneg store1 [scenario_contribution] hn).1 0 0 0 0 0⟩

/-- C6: every contribution has bounded time support: any travel-time bin
whose time lies outside the band of one pulse length around the pair's
combined two-way travel time is left exactly at its prior value; and in the
specification's concrete scenario (a 1-by-5 matrix of zeros, pulse length
one half, threshold one trillionth, a peak of 0.003 landing in bin 2), the
result is exactly the matrix 0, 0, 0.003, 0, 0. -/
theorem c6_bounded_time_support :
    (∀ (c : envelope_collection) (sv rv : eigenverb) (sb rb : List (List ℝ))
        (sc : List ℝ) (x y : ℝ) (a s r freq t : ℕ),
      ¬ (sv.time + rv.time - c.pulse_length ≤ c.travel_time.getD t 0 ∧
          c.travel_time.getD t 0 ≤ sv.time + rv.time + c.pulse_length) →
        entryD (add_contribution c sv rv sb rb sc x y) a s r freq t
          = entryD c a s r freq t) ∧
      (add_contribution scenario_store scenario_src_verb scenario_rcv_verb
          [[1]] [[1]] [3 / 1000] 0 0).envelopes
        = [[[[[0, 0, 3 / 1000, 0, 0]]]]] := by
  constructor
  · intro c sv rv sb rb sc x y a s r freq t h
    exact entryD_unchanged_of_delta_zero c sv rv sb rb sc x y a s r freq t
      (contrib_delta_outside_support c sv rv sb rb sc x y a s r freq t h)
  · show ({ scenario_store with
        envelopes := map_entries _ scenario_store.envelopes } : envelope_collection).envelopes
        = _
    dsimp only
    unfold map_entries scenario_store
    dsimp only
    simp only [mapI]
    norm_num [contrib_delta, peak_intensity, scenario_src_verb,
      scenario_rcv_verb, Real.exp_zero, List.getD_cons_zero, List.getD_cons_succ]

/-- C6 witness: the general bounded-support statement applied at a concrete
bin (time 0) far outside the support band around a combined travel time of
10 seconds. -/
theorem c6_witness :
    ¬ ((⟨5, [1], 0⟩ : eigenverb).time + (⟨5, [1], 0⟩ : eigenverb).time
          - store1.pulse_length ≤ store1.travel_time.getD 0 0 ∧
        store1.travel_time.getD 0 0 ≤ (⟨5, [1], 0⟩ : eigenverb).time
          + (⟨5, [1], 0⟩ : eigenverb).time + store1.pulse_length) ∧
      entryD (add_contribution store1 ⟨5, [1], 0⟩ ⟨5, [1], 0⟩ [[1]] [[1]] [1] 0 0)
          0 0 0 0 0
        = entryD store1 0 0 0 0 0 := by
  have hns : ¬ ((⟨5, [1], 0⟩ : eigenverb).time + (⟨5, [1], 0⟩ : eigenverb).time
      - store1.pulse_length ≤ store1.travel_time.getD 0 0 ∧
        store1.travel_time.getD 0 0 ≤ (⟨5, [1], 0⟩ : eigenverb).time
          + (⟨5, [1], 0⟩ : eigenverb).time + store1.pulse_length) := by
    norm_num [store1]
  exact ⟨hns,
    c6_bounded_time_support.1 store1 ⟨5, [1], 0⟩ ⟨5, [1], 0⟩ [[1]] [[1]] [1]
      0 0 0 0 0 0 0 hns⟩

/-- C7: accumulation is order-independent: permuting a sequence of
contributions yields the same final store (addition of state-independent
addends commutes, exactly, in the real-number model of the arithmetic). -/
theorem c7_accumulation_order_independent (c : envelope_collection)
    {l1 l2 : List contribution} (h : l1.Perm l2) :
    apply_contributions c l1 = apply_contributions c l2 :=
  foldl_perm_of_comm apply_contribution_comm h c

/-- C7 witness: swapping two concrete contributions leaves the final sample
store unchanged. -/
theorem c7_witness :
    apply_contributions store1 [scenario_contribution, contribution2]
      = apply_contributions store1 [contribution2, scenario_contribution] :=
  c7_accumulation_order_independent store1
    (List.Perm.swap contribution2 scenario_contribution [])

/-- C8 counterexample: at a concrete out-of-range call on a well-formed
store, the source getter yields no result at all (the unchecked index walks
off the nested arrays, which is undefined behaviour in the original), while
the behaviour the specification describes is a reported IndexOutOfRange
error; no such detection or error value exists in the code path. -/
theorem c8_counterexample :
    envelope_get store1 1 0 0 = none ∧
      envelope_get_checked store1 1 0 0 = Except.error EnvError.indexOutOfRange := by
  constructor
  · rfl
  · rfl

/-- C8 (amended): the getter performs raw, unchecked indexing: on any store
satisfying the dimensional invariant, the access resolves to a matrix
exactly when the azimuth and beam indices are within the configured bounds,
and an out-of-range access simply has no defined result, rather than being
detected and reported at the API boundary. -/
theorem c8_amended_unchecked_access (c : envelope_collection) (a s r : ℕ)
    (h : MatrixDims c) :
    (envelope_get c a s r).isSome ↔
      a < c.num_azimuths ∧ s < c.num_src_beams ∧ r < c.num_rcv_beams := by
  obtain ⟨hA, hrest⟩ := h
  unfold envelope_get
  constructor
  · intro hsome
    cases h1 : c.envelopes.get? a with
    | none => rw [h1] at hsome; simp at hsome
    | some sl =>
        rw [h1] at hsome
        simp only [Option.some_bind] at hsome
        cases h2 : sl.get? s with
        | none => rw [h2] at hsome; simp at hsome
        | some sl2 =>
            rw [h2] at hsome
            simp only [Option.some_bind] at hsome
            have ha : a < c.envelopes.length :=
              (get?_isSome_iff _ _).mp (by rw [h1]; rfl)
            obtain ⟨hS, h2d⟩ := hrest sl (List.get?_mem h1)
            have hsi : s < sl.length :=
              (get?_isSome_iff _ _).mp (by rw [h2]; rfl)
            obtain ⟨hR, _⟩ := h2d sl2 (List.get?_mem h2)
            have hri : r < sl2.length := (get?_isSome_iff _ _).mp hsome
            exact ⟨hA ▸ ha, hS ▸ hsi, hR ▸ hri⟩
  · rintro ⟨ha, hs2, hr⟩
    have ha2 : a < c.envelopes.length := by rw [hA]; exact ha
    cases h1 : c.envelopes.get? a with
    | none =>
        have := List.get?_eq_none.mp h1
        omega
    | some sl =>
        simp only [Option.some_bind]
        obtain ⟨hS, h2d⟩ := hrest sl (List.get?_mem h1)
        have hs3 : s < sl.length := by rw [hS]; exact hs2
        cases h2 : sl.get? s with
        | none =>
            have := List.get?_eq_none.mp h2
            omega
        | some sl2 =>
            simp only [Option.some_bind]
            obtain ⟨hR, _⟩ := h2d sl2 (List.get?_mem h2)
            rw [get?_isSome_iff]
            rw [hR]
            exact hr

/-- C8 witness: the amended statement applied to the sample store, whose
single in-range cell resolves. -/
theorem c8_amended_witness :
    MatrixDims store1 ∧ (envelope_get store1 0 0 0).isSome :=
  ⟨by decide,
    (c8_amended_unchecked_access store1 0 0 0 (by decide)).mpr
      ⟨by decide, by decide, by decide⟩⟩

/-- C10: beam_pattern_sine fills the level vector with one scalar — the
dotnorm value computed from the angles alone — repeated once per frequency;
the frequency values influence only the vector's length, and for some
angles the scalar is strictly negative, so the emitted level is not
guaranteed non-negative. -/
theorem c10_beam_pattern_sine (de az theta phi : ℝ) (frequencies : List ℝ) :
    (∀ x ∈ beam_level de az theta phi frequencies, x = dotnorm de az theta phi) ∧
      (beam_level de az theta phi frequencies).length = frequencies.length ∧
        (∀ freqs2 : List ℝ, freqs2.length = frequencies.length →
          beam_level de az theta phi freqs2
            = beam_level de az theta phi frequencies) ∧
          ∃ de2 az2 theta2 phi2 : ℝ, dotnorm de2 az2 theta2 phi2 < 0 := by
  refine ⟨?_, ?_, ?_, ?_⟩
  · intro x hx
    exact List.eq_of_mem_replicate hx
  · exact List.length_replicate _ _
  · intro freqs2 h2
    unfold beam_level
    rw [h2]
  · refine ⟨0, -(2 * (1 / 10 ^ 10)), -(Real.pi / 2) + 2 * (1 / 10 ^ 10), 0, ?_⟩
    unfold dotnorm
    dsimp only
    rw [show 0.5 * (Real.pi / 2 - 0 - (-(Real.pi / 2) + 2 * (1 / 10 ^ 10)))
          + 1 / 10 ^ 10 = Real.pi / 2 by ring,
      show (0.5 * (-(2 * (1 / 10 ^ 10)) + 0) + 1 / 10 ^ 10 : ℝ) = 0 by ring,
      show Real.pi / 2 - 0 = Real.pi / 2 by ring,
      Real.sin_pi_div_two, Real.sin_zero]
    ring_nf
    norm_num

/-- C10 witness: the structure theorem applied at concrete angles and a
concrete two-frequency vector, including an application of the length-only
dependence on a different frequency vector of equal length. -/
theorem c10_witness :
    (beam_level 0 0 0 0 [440, 880]).length = 2 ∧
      beam_level 0 0 0 0 [1, 2] = beam_level 0 0 0 0 [440, 880] := by
  obtain ⟨h1, h2, h3, h4⟩ := c10_beam_pattern_sine 0 0 0 0 [440, 880]
  exact ⟨by rw [h2]; rfl, h3 [1, 2] rfl⟩

end USML
